import Mathlib

/-!
# Verification of the paper discovery and relevance-ranking engine

Shallow embedding of `src/arxiv_research.py` (class `ArxivResearcher`):
keyword extraction, query expansion, category lookup, query building,
relevance scoring, the multi-strategy search orchestrator, response
handling at the search-executor boundary, entry parsing, and paper
statistics.  Python strings are modelled by Lean `String` (ASCII text
semantics: `str.lower`, `\w`, `\s` and `str.strip` are modelled for the
ASCII range), Python floats by exact rationals `ℚ`, Python sets of
strings by `Finset String`, and fallible parsing by `Option`.
-/

set_option maxRecDepth 2000

namespace ArxivResearch

/-- ASCII lower-case letter, the character class `[a-z]` of the keyword
regex `\b[a-z]{3,}\b`. -/
def isLowerAlpha (c : Char) : Bool :=
  'a' ≤ c && c ≤ 'z'

/-- Python regex word character `\w` restricted to the ASCII range:
letters, digits, or underscore.  The `\b` boundaries of the keyword
regex separate word characters from non-word characters. -/
def isWordChar (c : Char) : Bool :=
  c.isAlphanum || c = '_'

/-- ASCII whitespace, modelling Python's `\s` / `str.strip()` /
`str.split()` whitespace class for ASCII text. -/
def isSpaceChar (c : Char) : Bool :=
  c = ' ' || c = '\t' || c = '\n' || c = '\r' || c = '\x0b' || c = '\x0c'

/-- Python `str.lower()` (ASCII semantics, via `Char.toLower`). -/
def pyLower (s : String) : String :=
  String.mk (s.toList.map Char.toLower)

/-- Code-point lexicographic order on strings (the order Python uses
when comparing strings, e.g. in `sorted`). -/
def strLeB : List Char → List Char → Bool
  | [], _ => true
  | _ :: _, [] => false
  | a :: as, b :: bs =>
    if a < b then true else if b < a then false else strLeB as bs

/-- `strLeB` as a binary relation on `String`. -/
def strLe (s t : String) : Prop :=
  strLeB s.toList t.toList = true

instance : DecidableRel strLe := fun s t =>
  inferInstanceAs (Decidable (strLeB s.toList t.toList = true))

/-- Python substring test `needle in haystack` on strings. -/
def pyContains (haystack needle : String) : Bool :=
  haystack.toList.tails.any (fun t => needle.toList.isPrefixOf t)

/-- Python `str.strip()`: remove leading and trailing whitespace. -/
def pyStrip (s : String) : String :=
  String.mk (((s.toList.dropWhile isSpaceChar).reverse.dropWhile isSpaceChar).reverse)

/-- Scanner for `re.sub(r'\s+', ' ', s)`: the flag records whether the
previous character was whitespace (so a whitespace run emits a single
space). -/
def collapseWsGo : Bool → List Char → List Char
  | _, [] => []
  | inSpace, c :: cs =>
    if isSpaceChar c then
      if inSpace then collapseWsGo true cs else ' ' :: collapseWsGo true cs
    else
      c :: collapseWsGo false cs

/-- `re.sub(r'\s+', ' ', s)`: collapse every maximal run of whitespace
into a single space. -/
def collapseWs (s : String) : String :=
  String.mk (collapseWsGo false s.toList)

/-- Python `str.split('/')`-style split on a single character, keeping
empty fields. -/
def splitOnChar (sep : Char) (s : String) : List String :=
  (s.toList.splitOnP (fun c => c = sep)).map String.mk

/-- Python `str.split()` with no argument: split on whitespace runs,
dropping empty fields. -/
def pySplitWs (s : String) : List String :=
  ((s.toList.splitOnP isSpaceChar).filter (fun w => !w.isEmpty)).map String.mk

/-- Accumulator pass of `runsBy`: `cur` holds the reversed current run
of characters satisfying `p`. -/
def runsByGo (p : Char → Bool) : List Char → List Char → List (List Char)
  | cur, [] => if cur.isEmpty then [] else [cur.reverse]
  | cur, c :: cs =>
    if p c then runsByGo p (c :: cur) cs
    else if cur.isEmpty then runsByGo p [] cs else cur.reverse :: runsByGo p [] cs

/-- Scanner splitting a character list into the maximal runs of
characters satisfying `p`, in order, dropping the separators. -/
def runsBy (p : Char → Bool) (l : List Char) : List (List Char) :=
  runsByGo p [] l

/-- The stop-word list of `ArxivResearcher.__init__` (`self.stop_words`). -/
def stop_words : List String :=
  ["the", "a", "an", "and", "or", "but", "in", "on", "at", "to",
   "for", "of", "with", "by", "is", "are", "was", "were", "be",
   "been", "being", "have", "has", "had", "do", "does", "did",
   "will", "would", "could", "should", "may", "might", "can",
   "this", "that", "these", "those", "we", "you", "he", "she",
   "it", "they", "them", "their", "our", "your", "his", "her",
   "its", "from", "into", "through", "during", "before", "after",
   "above", "below", "up", "down", "out", "off", "over", "under",
   "again", "further", "then", "once"]

/-- `ArxivResearcher._extract_keywords`: lower-case the text, apply
`re.findall(r'\b[a-z]{3,}\b', text)`, and drop stop words.  A regex
match is a run of at least three `[a-z]` characters delimited by word
boundaries, so the matches are exactly the maximal runs of word
characters (`\w`) that consist solely of lower-case letters and have
length at least 3. -/
def extract_keywords (text : String) : List String :=
  let lowered := pyLower text
  let tokens :=
    ((runsBy isWordChar lowered.toList).filter
      (fun r => 3 ≤ r.length && r.all isLowerAlpha)).map String.mk
  tokens.filter (fun t => !stop_words.contains t)

/-- The keyword set: every use site of `_extract_keywords` in the scorer
wraps the returned list in `set(...)`. -/
def extractKeywordSet (text : String) : Finset String :=
  (extract_keywords text).toFinset

/-- `ArxivResearcher.__init__` — `self.synonym_map`. -/
def synonym_map : List (String × List String) :=
  [("transformer", ["attention", "bert", "gpt", "encoder-decoder", "self-attention"]),
   ("deep learning", ["neural network", "deep neural", "artificial neural", "deep net"]),
   ("machine learning", ["ml", "statistical learning", "learning algorithm"]),
   ("computer vision", ["cv", "image processing", "visual recognition", "image analysis"]),
   ("natural language processing", ["nlp", "text processing", "language understanding", "text mining"]),
   ("reinforcement learning", ["rl", "policy gradient", "q-learning", "actor-critic"]),
   ("generative", ["gan", "vae", "diffusion", "autoregressive", "generation"]),
   ("optimization", ["gradient descent", "adam", "sgd", "training", "learning rate"]),
   ("attention", ["self-attention", "cross-attention", "multi-head", "attention mechanism"]),
   ("classification", ["categorization", "prediction", "recognition", "labeling"]),
   ("detection", ["recognition", "identification", "localization", "finding"]),
   ("segmentation", ["parsing", "pixel-wise", "semantic", "instance"]),
   ("embedding", ["representation", "encoding", "feature", "vector"]),
   ("pretraining", ["pre-training", "self-supervised", "unsupervised", "pretrain"]),
   ("fine-tuning", ["finetuning", "adaptation", "transfer learning", "finetune"]),
   ("multimodal", ["multi-modal", "cross-modal", "vision-language", "multimedia"]),
   ("few-shot", ["few shot", "k-shot", "low-resource", "low-data"]),
   ("zero-shot", ["zero shot", "unseen", "generalization", "transfer"]),
   ("graph", ["network", "node", "edge", "topology"]),
   ("neural", ["network", "net", "layer", "neuron"]),
   ("convolutional", ["cnn", "conv", "convnet", "convolution"]),
   ("recurrent", ["rnn", "lstm", "gru", "sequence"]),
   ("adversarial", ["gan", "attack", "robust", "defense"])]

/-- `ArxivResearcher.__init__` — `self.category_map`. -/
def category_map : List (String × List String) :=
  [("machine learning", ["cs.LG", "stat.ML", "cs.AI"]),
   ("deep learning", ["cs.LG", "cs.AI", "cs.CV", "cs.CL"]),
   ("computer vision", ["cs.CV", "cs.AI", "cs.LG"]),
   ("natural language processing", ["cs.CL", "cs.AI", "cs.LG", "cs.IR"]),
   ("nlp", ["cs.CL", "cs.AI", "cs.LG"]),
   ("transformer", ["cs.CL", "cs.LG", "cs.AI"]),
   ("attention", ["cs.CL", "cs.LG", "cs.AI"]),
   ("neural network", ["cs.LG", "cs.AI", "cs.NE"]),
   ("reinforcement learning", ["cs.LG", "cs.AI"]),
   ("robotics", ["cs.RO", "cs.AI", "cs.LG"]),
   ("optimization", ["math.OC", "cs.LG", "stat.ML"]),
   ("graph neural network", ["cs.LG", "cs.AI", "cs.SI"]),
   ("recommendation", ["cs.IR", "cs.LG", "cs.AI"]),
   ("time series", ["stat.ML", "cs.LG", "econ.EM"]),
   ("generative", ["cs.LG", "cs.AI", "cs.CV", "cs.CL"]),
   ("diffusion", ["cs.LG", "cs.AI", "cs.CV"]),
   ("language model", ["cs.CL", "cs.AI", "cs.LG"]),
   ("multimodal", ["cs.CV", "cs.CL", "cs.AI"]),
   ("self-supervised", ["cs.LG", "cs.CV", "cs.AI"]),
   ("federated learning", ["cs.LG", "cs.DC", "cs.AI"]),
   ("meta learning", ["cs.LG", "cs.AI"]),
   ("few shot", ["cs.LG", "cs.AI", "cs.CV"]),
   ("zero shot", ["cs.LG", "cs.AI", "cs.CL"]),
   ("prompt", ["cs.CL", "cs.AI", "cs.LG"]),
   ("retrieval", ["cs.IR", "cs.CL", "cs.AI"]),
   ("knowledge graph", ["cs.AI", "cs.DB", "cs.CL"]),
   ("explainable ai", ["cs.AI", "cs.LG"]),
   ("adversarial", ["cs.LG", "cs.AI", "cs.CV", "cs.CR"]),
   ("privacy", ["cs.CR", "cs.LG", "cs.AI"]),
   ("quantum", ["quant-ph", "cs.AI", "cs.LG"]),
   ("blockchain", ["cs.CR", "cs.DC", "econ.GN"]),
   ("speech", ["eess.AS", "cs.CL", "cs.SD"]),
   ("audio", ["eess.AS", "cs.SD", "cs.AI"]),
   ("signal processing", ["eess.SP", "cs.LG"]),
   ("biomedical", ["q-bio", "cs.AI", "cs.LG"]),
   ("medical", ["q-bio.QM", "cs.AI", "cs.CV"]),
   ("finance", ["q-fin", "cs.LG", "stat.ML"]),
   ("economics", ["econ", "cs.GT", "q-fin"])]

/-- Append an element to a duplicate-free list if absent (building the
contents of a Python `set` in insertion order). -/
def dedupInsert (l : List String) (x : String) : List String :=
  if l.contains x then l else l ++ [x]

/-- The contents of the `expanded_terms` set of
`_expand_query_terms`, as a duplicate-free list in insertion order:
the original topic, plus the synonyms (and keys) of every
synonym-table entry whose key occurs in the lower-cased topic as a
substring, plus the extracted keywords. -/
def expand_terms_list (topic : String) : List String :=
  let topic_lower := pyLower topic
  let withSyn :=
    synonym_map.foldl
      (fun acc kv =>
        if pyContains topic_lower kv.1 then
          dedupInsert (kv.2.foldl dedupInsert acc) kv.1
        else acc)
      [topic]
  (extract_keywords topic).foldl dedupInsert withSyn

/-- `ArxivResearcher._expand_query_terms` as the set it returns. -/
def expand_query_terms (topic : String) : Finset String :=
  (expand_terms_list topic).toFinset

/-- The default category set of `_get_relevant_categories`. -/
def defaultCategories : Finset String :=
  {"cs.AI", "cs.LG", "cs.CL", "cs.CV"}

/-- The contents of the `relevant_cats` set of
`_get_relevant_categories`, as a duplicate-free list: the union of the
category lists of every table entry whose key occurs in the
lower-cased topic as a substring; if nothing matched, the fixed
default AI/ML set. -/
def relevant_cats_list (topic : String) : List String :=
  let topic_lower := pyLower topic
  let matched :=
    category_map.foldl
      (fun acc kv => if pyContains topic_lower kv.1 then kv.2.foldl dedupInsert acc else acc)
      []
  if matched.isEmpty then ["cs.AI", "cs.LG", "cs.CL", "cs.CV"] else matched

/-- `ArxivResearcher._get_relevant_categories` as the set it holds. -/
def get_relevant_categories (topic : String) : Finset String :=
  (relevant_cats_list topic).toFinset

/-- Model of Python's `list(s)` on a `set` of strings.  CPython set
iteration order is unspecified (hash-based, randomized per process);
the model fixes the lexicographic order on the set's contents.
Theorems whose truth depends on the iteration order quantify over
enumerations instead of relying on this fixed one. -/
def setToList (l : List String) : List String :=
  List.insertionSort strLe l

/-- The terms of the abstract OR-clause of the comprehensive query:
`main_terms = list(expanded_terms)[:5]` followed by the filter
`len(term) > 3` (the slice is taken before the length filter). -/
def absClauseTerms (enumTerms : List String) : List String :=
  (enumTerms.take 5).filter (fun t => 3 < t.length)

/-- `ArxivResearcher.generate_optimized_query`, parametrized by the
enumeration orders chosen for the two Python sets it converts to lists
(`list(expanded_terms)` and `list(relevant_cats)`). -/
def generate_optimized_queryWith (enumTerms enumCats : List String)
    (topic strategy : String) : String :=
  let topic_clean := pyStrip topic
  if strategy = "precise" then
    "ti:\"" ++ topic_clean ++ "\""
  else if strategy = "comprehensive" then
    let titleParts :=
      if (pySplitWs topic_clean).length ≤ 3 then
        ["ti:\"" ++ topic_clean ++ "\""]
      else []
    let abs_queries := (absClauseTerms enumTerms).map (fun t => "abs:\"" ++ t ++ "\"")
    let absParts :=
      if abs_queries.isEmpty then []
      else ["(" ++ String.intercalate " OR " abs_queries ++ ")"]
    let catParts :=
      if enumCats.isEmpty then []
      else
        let cat_queries := (enumCats.take 3).map (fun c => "cat:" ++ c)
        ["(" ++ String.intercalate " OR " cat_queries ++ ")"]
    let query_parts := titleParts ++ absParts ++ catParts
    if 1 < query_parts.length then
      String.intercalate " AND " query_parts
    else
      match query_parts with
      | p :: _ => p
      | [] => "all:\"" ++ topic_clean ++ "\""
  else
    "ti:\"" ++ topic_clean ++ "\" OR abs:\"" ++ topic_clean ++ "\""

/-- `generate_optimized_query` with the model's fixed set-enumeration
order. -/
def generate_optimized_query (topic strategy : String) : String :=
  generate_optimized_queryWith
    (setToList (expand_terms_list (pyStrip topic)))
    (setToList (relevant_cats_list (pyStrip topic)))
    topic strategy

/-- A parsed paper record (the dict assembled by `_parse_paper_entry`).
`relevance_score` is a float in the source, modelled by `ℚ`. -/
structure Paper where
  id : String
  title : String
  authors : List String
  summary : String
  published : String
  updated : String
  pdf_link : String
  arxiv_url : String
  categories : List String
  doi : Option String
  journal_ref : Option String
  relevance_score : ℚ
deriving DecidableEq, Repr

/-- The title sub-score of `_calculate_relevance_score`:
`title_overlap / len(topic_keywords)`. -/
def title_score (paper : Paper) (topic : String) : ℚ :=
  ((extractKeywordSet topic ∩ extractKeywordSet paper.title).card : ℚ) /
    ((extractKeywordSet topic).card : ℚ)

/-- The abstract sub-score of `_calculate_relevance_score`:
`summary_overlap / len(topic_keywords)`. -/
def summary_score (paper : Paper) (topic : String) : ℚ :=
  ((extractKeywordSet topic ∩ extractKeywordSet paper.summary).card : ℚ) /
    ((extractKeywordSet topic).card : ℚ)

/-- The category sub-score of `_calculate_relevance_score`:
`cat_overlap / len(relevant_cats)` guarded by `if relevant_cats`. -/
def cat_score (paper : Paper) (topic : String) : ℚ :=
  if get_relevant_categories topic = ∅ then 0
  else
    ((paper.categories.toFinset ∩ get_relevant_categories topic).card : ℚ) /
      ((get_relevant_categories topic).card : ℚ)

/-- The recency sub-score of `_calculate_relevance_score`:
`max(0, 1 - days_old / 365)` (written with an explicit conditional). -/
def time_score (days_old : ℤ) : ℚ :=
  if 1 - (days_old : ℚ) / 365 < 0 then 0 else 1 - (days_old : ℚ) / 365

/-- `ArxivResearcher._calculate_relevance_score`.  The recency factor
in the source parses `paper['published'][:10]` with
`datetime.strptime(..., '%Y-%m-%d')` and subtracts it from
`datetime.now()`; the whole `try` block is skipped when parsing fails.
That date machinery is abstracted by the parameter `parseDaysOld`,
mapping the published string to the signed day count since publication
(`none` models the `except: pass` branch). -/
def calculate_relevance_score (parseDaysOld : String → Option ℤ)
    (paper : Paper) (topic : String) : ℚ :=
  if extractKeywordSet topic = ∅ then 1/2
  else
    let base :=
      title_score paper topic * (4/10) + summary_score paper topic * (3/10) +
        cat_score paper topic * (2/10)
    let score :=
      match parseDaysOld paper.published with
      | none => base
      | some days_old => base + time_score days_old * (1/10)
    min score 1

/-- The ordered strategy list of `search_papers_with_relevance`:
`strategies = [strategy]`, extended by `["balanced", "precise"]` when
the strategy is `"comprehensive"`. -/
def strategy_list (strategy : String) : List String :=
  [strategy] ++ (if strategy = "comprehensive" then ["balanced", "precise"] else [])

/-- One iteration body of the strategy loop: build the query for the
strategy, execute it (the network search `_execute_search` is the
stub parameter `qexec`, called with `max_results * 2`), attach the
relevance score to every returned paper, and keep those with
`relevance_score >= min_relevance`. -/
def keptPapers (qexec : String → ℕ → List Paper) (parseDaysOld : String → Option ℤ)
    (topic : String) (max_results : ℕ) (min_relevance : ℚ) (s : String) : List Paper :=
  let query := generate_optimized_query topic s
  let papers := qexec query (max_results * 2)
  (papers.map
      (fun p => { p with relevance_score := calculate_relevance_score parseDaysOld p topic })).filter
    (fun p => min_relevance ≤ p.relevance_score)

/-- The `for search_strategy in strategies` loop: candidates accumulate
into `all_papers`, and the loop breaks as soon as `all_papers` is
non-empty after a strategy has been processed. -/
def loopStrategies (kept : String → List Paper) : List Paper → List String → List Paper
  | acc, [] => acc
  | acc, s :: rest =>
    let acc2 := acc ++ kept s
    if acc2.isEmpty then loopStrategies kept acc2 rest else acc2

/-- The strategies for which the loop actually builds and executes a
query (every strategy consumed before the early `break`, inclusive). -/
def invokedStrategies (kept : String → List Paper) : List Paper → List String → List String
  | _, [] => []
  | acc, s :: rest =>
    let acc2 := acc ++ kept s
    if acc2.isEmpty then s :: invokedStrategies kept acc2 rest else [s]

/-- The accumulated working set `all_papers` of
`search_papers_with_relevance` after the strategy loop. -/
def all_papers (qexec : String → ℕ → List Paper) (parseDaysOld : String → Option ℤ)
    (topic : String) (max_results : ℕ) (strategy : String) (min_relevance : ℚ) : List Paper :=
  loopStrategies (keptPapers qexec parseDaysOld topic max_results min_relevance)
    [] (strategy_list strategy)

/-- One step of the dedup dict `unique_papers`: a fresh id is appended
(dict insertion order); an existing id keeps its position and is
replaced only when the new paper's score is strictly higher. -/
def insertPaper : List Paper → Paper → List Paper
  | [], p => [p]
  | q :: rest, p =>
    if q.id = p.id then
      (if q.relevance_score < p.relevance_score then p else q) :: rest
    else
      q :: insertPaper rest p

/-- The dedup pass of `search_papers_with_relevance` (`unique_papers`
dict keyed by ArXiv id, values read back in insertion order). -/
def unique_papers (l : List Paper) : List Paper :=
  l.foldl insertPaper []

/-- The comparison of `sorted(..., key=lambda x: x['relevance_score'],
reverse=True)`. -/
def scoreGE (a b : Paper) : Prop :=
  b.relevance_score ≤ a.relevance_score

instance : DecidableRel scoreGE := fun a b =>
  inferInstanceAs (Decidable (b.relevance_score ≤ a.relevance_score))

/-- `sorted(..., key=lambda x: x['relevance_score'], reverse=True)`:
Python's sort is stable, modelled by a stable insertion sort. -/
def sortByRelevance (l : List Paper) : List Paper :=
  List.insertionSort scoreGE l

/-- `ArxivResearcher.search_papers_with_relevance`: try the strategies
in order with early stop, dedup by id keeping the higher score, sort
by relevance descending, truncate to `max_results`. -/
def search_papers_with_relevance (qexec : String → ℕ → List Paper)
    (parseDaysOld : String → Option ℤ) (topic : String) (max_results : ℕ)
    (strategy : String) (min_relevance : ℚ) : List Paper :=
  (sortByRelevance
      (unique_papers (all_papers qexec parseDaysOld topic max_results strategy min_relevance))).take
    max_results

/-- An `xml.etree.ElementTree` element as consumed by
`_parse_paper_entry`: its `.text` (possibly `None`) and its child
count.  Python truth-testing of an `Element` is `len(children) != 0`,
which the source relies on in `summary_elem and summary_elem.text`. -/
structure Elem where
  text : Option String
  numChildren : ℕ := 0
deriving DecidableEq, Repr

/-- Python truthiness of an `Element`. -/
def elemTruthy (e : Elem) : Bool :=
  e.numChildren ≠ 0

/-- Python truthiness of `elem.text` (an optional string). -/
def optTextTruthy : Option String → Bool
  | none => false
  | some s => s ≠ ""

/-- An `atom:link` element: the `type`, `title` and `href` attributes
read by `link.get(...)`. -/
structure LinkNode where
  linkType : Option String := none
  linkTitle : Option String := none
  href : Option String := none
deriving DecidableEq, Repr

/-- An `atom:author` element with its optional `atom:name` child. -/
structure AuthorNode where
  name : Option Elem := none
deriving DecidableEq, Repr

/-- One `atom:entry` of an API response, with the sub-elements and
attributes `_parse_paper_entry` reads (a missing sub-element is
`none`; each `atom:category` contributes its optional `term`
attribute). -/
structure Entry where
  title : Option Elem := none
  summary : Option Elem := none
  published : Option Elem := none
  updated : Option Elem := none
  idElem : Option Elem := none
  links : List LinkNode := []
  authors : List AuthorNode := []
  categories : List (Option String) := []
  comment : Option Elem := none
deriving DecidableEq, Repr

/-- `ArxivResearcher._parse_paper_entry` (returns `None` when the entry
lacks a title or id with truthy text; otherwise assembles the paper
dict). -/
def parse_paper_entry (entry : Entry) : Option Paper :=
  match entry.title, entry.idElem with
  | some title_elem, some id_elem =>
    match title_elem.text, id_elem.text with
    | some titleText, some idText =>
      if titleText = "" || idText = "" then none
      else
        let title := collapseWs (pyStrip titleText)
        let summary :=
          collapseWs
            (match entry.summary with
             | some sEl =>
               if elemTruthy sEl && optTextTruthy sEl.text then pyStrip (sEl.text.getD "")
               else "摘要不可用"
             | none => "摘要不可用")
        let published :=
          match entry.published with
          | some pEl =>
            if elemTruthy pEl && optTextTruthy pEl.text then pEl.text.getD "" else "日期不可用"
          | none => "日期不可用"
        let updated :=
          match entry.updated with
          | some uEl =>
            if elemTruthy uEl && optTextTruthy uEl.text then uEl.text.getD "" else published
          | none => published
        let arxiv_url := idText
        let arxiv_id := (splitOnChar '/' arxiv_url).getLastD ""
        let pdf_link_found :=
          match entry.links.find?
              (fun L => L.linkType = some "application/pdf" || L.linkTitle = some "pdf") with
          | some L => L.href
          | none => none
        let pdf_link :=
          match pdf_link_found with
          | some h => if h = "" then "https://arxiv.org/pdf/" ++ arxiv_id ++ ".pdf" else h
          | none => "https://arxiv.org/pdf/" ++ arxiv_id ++ ".pdf"
        let authorsRaw :=
          entry.authors.filterMap
            (fun a =>
              match a.name with
              | some nEl =>
                match nEl.text with
                | some t => if t = "" then none else some (pyStrip t)
                | none => none
              | none => none)
        let authors := if authorsRaw.isEmpty then ["作者信息不可用"] else authorsRaw
        let categories :=
          entry.categories.filterMap
            (fun t =>
              match t with
              | some s => if s = "" then none else some s
              | none => none)
        let doi :=
          match entry.links.find? (fun L => pyContains (L.href.getD "") "doi.org") with
          | some L => some ((splitOnChar '/' (L.href.getD "")).getLastD "")
          | none => none
        let journal_ref :=
          match entry.comment with
          | some cEl =>
            match cEl.text with
            | some ct =>
              if ct = "" then none
              else if ["published", "accepted", "appeared"].any
                  (fun kw => pyContains (pyLower ct) kw) then
                some (pyStrip ct)
              else none
            | none => none
          | none => none
        some
          { id := arxiv_id, title := title, authors := authors, summary := summary,
            published := published, updated := updated, pdf_link := pdf_link,
            arxiv_url := arxiv_url, categories := categories, doi := doi,
            journal_ref := journal_ref, relevance_score := 0 }
    | _, _ => none
  | _, _ => none

/-- A successfully fetched and XML-parsed API response as seen by
`_execute_search`: the `atom:error` descendants and the `atom:entry`
children. -/
structure ArxivDoc where
  errorTexts : List (Option String)
  entries : List Entry

/-- The possible outcomes of the HTTP request plus `ET.fromstring` in
`_execute_search`: a transport-level failure (`requests` exception or
`raise_for_status`), an XML parse failure, or a parsed document. -/
inductive FetchOutcome where
  | transportError
  | xmlParseError
  | ok (doc : ArxivDoc)

/-- `ArxivResearcher._execute_search` past the request boundary: every
failure path of the `try` block (transport error, XML parse error, and
the `raise` on API-reported `atom:error` elements) is caught by the
single `except` and becomes `[]`; otherwise the entries are parsed
individually, dropping the entries on which `_parse_paper_entry`
returns `None`.  Totality of this function is the embedding of "never
raises past its boundary". -/
def execute_search (outcome : FetchOutcome) : List Paper :=
  match outcome with
  | .transportError => []
  | .xmlParseError => []
  | .ok doc =>
    if !doc.errorTexts.isEmpty then []
    else doc.entries.filterMap parse_paper_entry

/-- The `relevance_distribution` dict of `get_paper_statistics`. -/
structure RelevanceDistribution where
  high : ℕ
  medium : ℕ
  low : ℕ
deriving DecidableEq, Repr

/-- The seven-key statistics dict returned by `get_paper_statistics`
for a non-empty input. -/
structure PaperStatistics where
  total_papers : ℕ
  average_relevance : ℚ
  relevance_distribution : RelevanceDistribution
  top_categories : List (String × ℕ)
  top_authors : List (String × ℕ)
  papers_by_year : List (String × ℕ)
deriving DecidableEq, Repr

/-- The distinct elements of a list in first-occurrence order (the key
order of a `collections.Counter` built by incrementing in list
order). -/
def distinctInOrder : List String → List String
  | [] => []
  | x :: xs => x :: (distinctInOrder xs).filter (fun y => y ≠ x)

/-- A `Counter` over a list of strings: keys in first-occurrence order
with their multiplicities. -/
def counterOf (l : List String) : List (String × ℕ) :=
  (distinctInOrder l).map (fun k => (k, l.count k))

/-- `Counter.most_common(n)`: items sorted by count descending (stable,
so ties keep insertion order), truncated to `n`. -/
def most_common (n : ℕ) (c : List (String × ℕ)) : List (String × ℕ) :=
  (List.insertionSort (fun a b : String × ℕ => b.2 ≤ a.2) c).take n

/-- `round(x, 3)` modelled over exact rationals. -/
def roundTo3 (q : ℚ) : ℚ :=
  ((round (q * 1000) : ℤ) : ℚ) / 1000

/-- `ArxivResearcher.get_paper_statistics`.  The empty Python dict
returned for an empty input is modelled by `none`; the full seven-key
dict by `some`. -/
def get_paper_statistics (papers : List Paper) : Option PaperStatistics :=
  if papers.isEmpty then none
  else
    let relevance_scores := papers.map (fun p => p.relevance_score)
    let category_count := counterOf (papers.flatMap (fun p => p.categories))
    let author_count :=
      counterOf
        ((papers.flatMap (fun p => p.authors)).filter
          (fun a => a ≠ "作者不可用" && a ≠ "作者信息不可用"))
    let year_count :=
      counterOf
        (papers.filterMap
          (fun p =>
            let year := String.mk (p.published.toList.take 4)
            if year ≠ "" && year.toList.all Char.isDigit then some year else none))
    let high := (relevance_scores.filter (fun s => decide ((1 : ℚ)/2 < s))).length
    let medium := (relevance_scores.filter (fun s => decide ((1 : ℚ)/5 < s ∧ s ≤ 1/2))).length
    let low := (relevance_scores.filter (fun s => decide (s ≤ (1 : ℚ)/5))).length
    some
      { total_papers := papers.length,
        average_relevance :=
          if relevance_scores.isEmpty then 0
          else roundTo3 (relevance_scores.sum / (relevance_scores.length : ℚ)),
        relevance_distribution := { high := high, medium := medium, low := low },
        top_categories := most_common 10 category_count,
        top_authors := most_common 10 author_count,
        papers_by_year :=
          List.insertionSort (fun a b : String × ℕ => strLe b.1 a.1) year_count }

/-- Modelled from the spec for comparison under claim C4 — the
spec-worded keyword extractor: "Lower-cases input, extracts maximal
runs of ≥3 alphabetic characters as tokens (non-alphabetic-boundary
tokenization; numbers and short words are dropped)", minus the
stop-word set, as a set. -/
def specKeywordSet (text : String) : Finset String :=
  let lowered := pyLower text
  let tokens :=
    ((runsBy isLowerAlpha lowered.toList).filter (fun r => 3 ≤ r.length)).map String.mk
  (tokens.filter (fun t => !stop_words.contains t)).toFinset

/-! ## Shared concrete fixtures used to instantiate the theorems -/

/-- A paper with every field defaulted. -/
def emptyPaper : Paper :=
  { id := "", title := "", authors := [], summary := "", published := "", updated := "",
    pdf_link := "", arxiv_url := "", categories := [], doi := none, journal_ref := none,
    relevance_score := 0 }

/-- A concrete paper used to instantiate theorems with hypotheses. -/
def egPaper1 : Paper :=
  { emptyPaper with
    id := "2301.00001", title := "Attention Is All You Need",
    authors := ["A"], summary := "transformer attention",
    published := "2024-01-01", updated := "2024-01-01",
    categories := ["cs.CL"] }

/-- A second concrete paper sharing `egPaper1`'s id but with a
different title (hence a different relevance score). -/
def egPaper2 : Paper :=
  { egPaper1 with title := "A Survey of Database Indexing" }

/-- A third concrete paper with a distinct id. -/
def egPaper3 : Paper :=
  { egPaper1 with id := "2301.00002" }

/-- A search-executor stub: the balanced query for topic `"xyz"` yields
three concrete papers (two sharing an id), every other query yields
nothing. -/
def egStub : String → ℕ → List Paper := fun q _ =>
  if q = "ti:\"xyz\" OR abs:\"xyz\"" then [egPaper1, egPaper2, egPaper3] else []

/-- A date-parse stub: every date string fails to parse. -/
def egPd : String → Option ℤ := fun _ => none

/-! ## Generic lemmas about the embedded operations -/

theorem foldl_match_nil (t : String) (l : List (String × List String))
    (acc : List String) (h : ∀ kv ∈ l, pyContains t kv.1 = false) :
    l.foldl
      (fun acc kv => if pyContains t kv.1 then kv.2.foldl dedupInsert acc else acc)
      acc = acc := by
  induction l generalizing acc with
  | nil => rfl
  | cons kv rest ih =>
    rw [List.foldl_cons, if_neg (by simp [h kv (by simp)])]
    exact ih acc fun kv' hk => h kv' (List.mem_cons_of_mem _ hk)

theorem runsByGo_congr (p q : Char → Bool) (l : List Char)
    (h : ∀ c ∈ l, p c = q c) : ∀ cur, runsByGo p cur l = runsByGo q cur l := by
  induction l with
  | nil => intro cur; rfl
  | cons c cs ih =>
    intro cur
    have hc : p c = q c := h c (by simp)
    have hcs : ∀ x ∈ cs, p x = q x := fun x hx => h x (List.mem_cons_of_mem _ hx)
    have ihcs : ∀ cur, runsByGo p cur cs = runsByGo q cur cs := ih hcs
    simp only [runsByGo, hc, ihcs]

theorem runsByGo_all (p : Char → Bool) (l : List Char) :
    ∀ cur, cur.all p → ∀ r ∈ runsByGo p cur l, r.all p = true := by
  induction l with
  | nil =>
    intro cur hcur r hr
    simp only [runsByGo] at hr
    by_cases hc : cur.isEmpty
    · rw [if_pos hc] at hr; simp at hr
    · rw [if_neg hc] at hr
      simp only [List.mem_singleton] at hr
      subst hr
      simpa using hcur
  | cons c cs ih =>
    intro cur hcur r hr
    simp only [runsByGo] at hr
    by_cases hp : p c = true
    · rw [if_pos hp] at hr
      have hcc : (c :: cur).all p = true := by
        simp only [List.all_cons, hp, Bool.true_and]; exact hcur
      exact ih (c :: cur) hcc r hr
    · rw [if_neg hp] at hr
      by_cases hc : cur.isEmpty
      · rw [if_pos hc] at hr
        exact ih [] (by simp) r hr
      · rw [if_neg hc] at hr
        rcases List.mem_cons.mp hr with hr | hr
        · subst hr; simpa using hcur
        · exact ih [] (by simp) r hr

theorem runsByGo_mem_subset (p : Char → Bool) (l : List Char) :
    ∀ cur r, r ∈ runsByGo p cur l → ∀ c ∈ r, c ∈ cur ∨ c ∈ l := by
  induction l with
  | nil =>
    intro cur r hr c hc
    simp only [runsByGo] at hr
    by_cases hcur : cur.isEmpty
    · rw [if_pos hcur] at hr; simp at hr
    · rw [if_neg hcur] at hr
      simp only [List.mem_singleton] at hr
      subst hr
      exact Or.inl (List.mem_reverse.mp hc)
  | cons x xs ih =>
    intro cur r hr c hc
    simp only [runsByGo] at hr
    by_cases hp : p x = true
    · rw [if_pos hp] at hr
      rcases ih (x :: cur) r hr c hc with h | h
      · rcases List.mem_cons.mp h with h | h
        · exact Or.inr (by simp [h])
        · exact Or.inl h
      · exact Or.inr (List.mem_cons_of_mem _ h)
    · rw [if_neg hp] at hr
      by_cases hcur : cur.isEmpty
      · rw [if_pos hcur] at hr
        rcases ih [] r hr c hc with h | h
        · simp at h
        · exact Or.inr (List.mem_cons_of_mem _ h)
      · rw [if_neg hcur] at hr
        rcases List.mem_cons.mp hr with hr | hr
        · subst hr
          exact Or.inl (List.mem_reverse.mp hc)
        · rcases ih [] r hr c hc with h | h
          · simp at h
          · exact Or.inr (List.mem_cons_of_mem _ h)

/-! ## Claim theorems -/

/-- C3 — counterexample: the topic `"quantum gravity simulation"`
does match the category table (its `'quantum'` entry), so the result
is not the default set. -/
theorem c3_counterexample :
    get_relevant_categories "quantum gravity simulation" =
      ({"quant-ph", "cs.AI", "cs.LG"} : Finset String) ∧
    get_relevant_categories "quantum gravity simulation" ≠ defaultCategories := by
  with_unfolding_all decide

/-- C3 (amended): `"quantum gravity simulation"` matches the
`'quantum'` table entry and yields `{quant-ph, cs.AI, cs.LG}`; in
general, whenever no table phrase occurs as a substring of the
lower-cased topic, the result is exactly the 4-element default set
`{cs.AI, cs.LG, cs.CL, cs.CV}`. -/
theorem c3_category_fallback :
    get_relevant_categories "quantum gravity simulation" =
      ({"quant-ph", "cs.AI", "cs.LG"} : Finset String) ∧
    ∀ topic : String,
      (∀ kv ∈ category_map, pyContains (pyLower topic) kv.1 = false) →
      get_relevant_categories topic = defaultCategories := by
  refine ⟨by with_unfolding_all decide, fun topic h => ?_⟩
  simp only [get_relevant_categories, relevant_cats_list]
  rw [foldl_match_nil (pyLower topic) category_map [] h]
  with_unfolding_all decide

/-- C3 — witness: a topic matching no table phrase gets the default
categories. -/
theorem c3_category_fallback_witness :
    (∀ kv ∈ category_map, pyContains (pyLower "stellar dynamics") kv.1 = false) ∧
    get_relevant_categories "stellar dynamics" = defaultCategories :=
  ⟨by with_unfolding_all decide,
   c3_category_fallback.2 "stellar dynamics" (by with_unfolding_all decide)⟩

/-- C8: at the `_execute_search` boundary, a transport error, an XML
parse failure, an API-reported error element, and a zero-entries
response all produce the empty list (the function is total: no
exception escapes). -/
theorem c8_executor_error_containment :
    execute_search .transportError = [] ∧
    execute_search .xmlParseError = [] ∧
    (∀ doc : ArxivDoc, doc.errorTexts ≠ [] → execute_search (.ok doc) = []) ∧
    (∀ doc : ArxivDoc, doc.entries = [] → execute_search (.ok doc) = []) := by
  refine ⟨rfl, rfl, fun doc h => ?_, fun doc h => ?_⟩
  · simp [execute_search, List.isEmpty_iff, h]
  · unfold execute_search
    by_cases he : doc.errorTexts.isEmpty
    · simp [he, h]
    · simp [he]

/-- C8 — witness: a document carrying an API error element, and a
well-formed document with zero entries, both yield `[]`. -/
theorem c8_executor_error_containment_witness :
    (({ errorTexts := [some "incorrect query"], entries := [] } : ArxivDoc).errorTexts ≠ [] ∧
      execute_search (.ok { errorTexts := [some "incorrect query"], entries := [] }) = []) ∧
    (({ errorTexts := [], entries := [] } : ArxivDoc).entries = [] ∧
      execute_search (.ok { errorTexts := [], entries := [] }) = []) :=
  ⟨⟨by simp, c8_executor_error_containment.2.2.1 _ (by simp)⟩,
   ⟨rfl, c8_executor_error_containment.2.2.2 { errorTexts := [], entries := [] } rfl⟩⟩

/-- C5: the relevance score always lies in `[0, 1]` — every weighted
sub-score is non-negative and the sum is clamped to `1`. -/
theorem title_score_nonneg (paper : Paper) (topic : String) : 0 ≤ title_score paper topic := by
  unfold title_score; positivity

theorem summary_score_nonneg (paper : Paper) (topic : String) :
    0 ≤ summary_score paper topic := by
  unfold summary_score; positivity

theorem cat_score_nonneg (paper : Paper) (topic : String) : 0 ≤ cat_score paper topic := by
  unfold cat_score
  split
  · exact le_refl 0
  · positivity

theorem time_score_nonneg (d : ℤ) : 0 ≤ time_score d := by
  unfold time_score
  split
  · exact le_refl 0
  · linarith [not_lt.mp (by assumption : ¬ 1 - (d : ℚ) / 365 < 0)]

/-- C5: the relevance score always lies in `[0, 1]` — every weighted
sub-score is non-negative and the sum is clamped to `1`. -/
theorem c5_score_bounds (pd : String → Option ℤ) (paper : Paper) (topic : String) :
    0 ≤ calculate_relevance_score pd paper topic ∧
    calculate_relevance_score pd paper topic ≤ 1 := by
  simp only [calculate_relevance_score]
  by_cases h : extractKeywordSet topic = ∅
  · rw [if_pos h]; norm_num
  · rw [if_neg h]
    have h1 := title_score_nonneg paper topic
    have h2 := summary_score_nonneg paper topic
    have h3 := cat_score_nonneg paper topic
    constructor
    · refine le_min ?_ zero_le_one
      cases hpd : pd paper.published with
      | none =>
        dsimp only
        exact add_nonneg
          (add_nonneg (mul_nonneg h1 (by norm_num)) (mul_nonneg h2 (by norm_num)))
          (mul_nonneg h3 (by norm_num))
      | some d =>
        have h4 := time_score_nonneg d
        dsimp only
        exact add_nonneg
          (add_nonneg
            (add_nonneg (mul_nonneg h1 (by norm_num)) (mul_nonneg h2 (by norm_num)))
            (mul_nonneg h3 (by norm_num)))
          (mul_nonneg h4 (by norm_num))
    · cases hpd : pd paper.published with
      | none => exact min_le_right _ _
      | some d => exact min_le_right _ _

/-- C10: `get_paper_statistics` of an empty list is the empty dict (no
keys — modelled as `none`), and of any non-empty list is the full
seven-key statistics structure. -/
theorem c10_statistics_empty_dict :
    get_paper_statistics [] = none ∧
    ∀ papers : List Paper, papers ≠ [] → (get_paper_statistics papers).isSome := by
  refine ⟨rfl, fun papers h => ?_⟩
  unfold get_paper_statistics
  rw [if_neg (by simpa [List.isEmpty_iff] using h)]
  rfl

/-- C10 — witness: a one-element list yields a populated statistics
structure. -/
theorem c10_statistics_empty_dict_witness :
    ([egPaper1] ≠ ([] : List Paper)) ∧ (get_paper_statistics [egPaper1]).isSome :=
  ⟨by simp, c10_statistics_empty_dict.2 [egPaper1] (by simp)⟩

/-- C4 — counterexample: on `"abc1"` the spec-worded extractor (runs
bounded by any non-alphabetic character) yields `{"abc"}`, but the
code's regex `\b[a-z]{3,}\b` requires word boundaries, so the run
`abc` (adjacent to the digit `1`) is not extracted at all. -/
theorem c4_counterexample :
    specKeywordSet "abc1" = {"abc"} ∧ extractKeywordSet "abc1" = ∅ ∧
    extractKeywordSet "abc1" ≠ specKeywordSet "abc1" := by
  with_unfolding_all decide

/-- C4 (amended): the tokens are the maximal runs of word characters
(letters, digits, underscore) that consist solely of at least 3
lower-case letters — an alphabetic run adjacent to a digit or an
underscore is dropped whole, not split.  On text whose (lower-cased)
characters make no distinction between word characters and lower-case
letters (no digits, underscores, or other non-alphabetic word
characters), the spec's description is exact; and the empty input
yields the empty set. -/
theorem c4_keyword_extraction :
    extractKeywordSet "" = ∅ ∧
    ∀ text : String,
      (∀ c ∈ (pyLower text).toList, isWordChar c = isLowerAlpha c) →
      extractKeywordSet text = specKeywordSet text := by
  refine ⟨rfl, fun text h => ?_⟩
  have hruns : runsBy isWordChar (pyLower text).toList =
      runsBy isLowerAlpha (pyLower text).toList :=
    runsByGo_congr isWordChar isLowerAlpha (pyLower text).toList h []
  have hall : ∀ r ∈ runsBy isLowerAlpha (pyLower text).toList, r.all isLowerAlpha = true :=
    fun r hr => runsByGo_all isLowerAlpha (pyLower text).toList [] (by simp) r hr
  have hfilter :
      (runsBy isLowerAlpha (pyLower text).toList).filter
          (fun r => decide (3 ≤ r.length) && r.all isLowerAlpha) =
        (runsBy isLowerAlpha (pyLower text).toList).filter
          (fun r => decide (3 ≤ r.length)) :=
    List.filter_congr fun r hr => by rw [hall r hr, Bool.and_true]
  simp only [extractKeywordSet, extract_keywords, specKeywordSet]
  rw [hruns, hfilter]

/-- C4 — witness: on a digit-free, underscore-free text the two
extractors agree. -/
theorem c4_keyword_extraction_witness :
    (∀ c ∈ (pyLower "Machine Learning for the people").toList,
      isWordChar c = isLowerAlpha c) ∧
    extractKeywordSet "Machine Learning for the people" =
      specKeywordSet "Machine Learning for the people" :=
  ⟨by with_unfolding_all decide,
   c4_keyword_extraction.2 "Machine Learning for the people" (by with_unfolding_all decide)⟩

/-- C6 — counterexample: for the topic `"machine learning"` the
expanded term set has 5 terms longer than 3 characters, yet under the
model's set enumeration the abstract clause holds only 4 of them,
because the code slices `list(expanded_terms)[:5]` before applying the
length filter and the short term `"ml"` occupies one of the five
slots. -/
theorem c6_counterexample :
    let enum := setToList (expand_terms_list "machine learning")
    enum.Nodup ∧ enum.toFinset = expand_query_terms "machine learning" ∧
    5 ≤ (enum.filter (fun t => 3 < t.length)).length ∧
    (absClauseTerms enum).length = 4 := by
  with_unfolding_all decide

/-- C6 (amended): for any enumeration of the expanded term set, the
abstract OR-clause consists of the terms longer than 3 characters
among the first 5 enumerated terms: it has at most 5 terms, each
longer than 3 characters and drawn from the expanded set, and it is
omitted exactly when none of the first 5 enumerated terms is longer
than 3 characters (so it can hold fewer than 5 terms, or be omitted,
even when 5 qualifying terms exist). -/
theorem c6_abs_clause_terms :
    ∀ (topic : String) (enum : List String),
      enum.toFinset = expand_query_terms topic →
      (absClauseTerms enum).length ≤ 5 ∧
      (∀ t ∈ absClauseTerms enum, 3 < t.length ∧ t ∈ expand_query_terms topic) ∧
      (absClauseTerms enum = [] ↔ ∀ t ∈ enum.take 5, ¬ 3 < t.length) := by
  intro topic enum henum
  refine ⟨?_, ?_, ?_⟩
  · calc (absClauseTerms enum).length ≤ (enum.take 5).length :=
          List.length_filter_le _ _
      _ ≤ 5 := by rw [List.length_take]; exact min_le_left _ _
  · intro t ht
    have h1 := List.mem_filter.mp ht
    refine ⟨by simpa using h1.2, ?_⟩
    rw [← henum, List.mem_toFinset]
    exact List.Sublist.mem h1.1 (List.take_sublist 5 enum)
  · unfold absClauseTerms
    rw [List.filter_eq_nil_iff]
    constructor
    · intro hf t htm
      simpa using hf t htm
    · intro hf t htm
      simpa using hf t htm

/-- C6 — witness: instantiated at the topic `"machine learning"` with
the model's enumeration of its expanded term set. -/
theorem c6_abs_clause_terms_witness :
    ((setToList (expand_terms_list "machine learning")).toFinset =
      expand_query_terms "machine learning") ∧
    (absClauseTerms (setToList (expand_terms_list "machine learning"))).length ≤ 5 :=
  ⟨by with_unfolding_all decide,
   (c6_abs_clause_terms "machine learning" (setToList (expand_terms_list "machine learning"))
      (by with_unfolding_all decide)).1⟩

/-- An entry whose title element holds whitespace-only text: the
truthiness check accepts it, and normalization empties it. -/
def wsTitleEntry : Entry :=
  { title := some { text := some " " },
    idElem := some { text := some "http://arxiv.org/abs/2301.00001v1" } }

/-- C7 — counterexample: an entry with whitespace-only raw title text
survives parsing (the source checks only truthiness of the raw text),
yet its stored title — stripped and whitespace-collapsed — is empty,
violating the claimed non-emptiness invariant. -/
theorem c7_counterexample :
    (parse_paper_entry wsTitleEntry).isSome = true ∧
    Option.map Paper.title (parse_paper_entry wsTitleEntry) = some "" := by
  with_unfolding_all decide

/-- C7 (amended): every record that survives parsing comes from an
entry whose raw title text and raw id text are present and non-empty;
the stored title is the whitespace-normalized raw title and the stored
id is the last `/`-segment of the raw id URL, and these normalized
values can be empty (e.g. for a whitespace-only raw title). -/
theorem c7_parse_required_fields :
    ∀ (e : Entry) (p : Paper), parse_paper_entry e = some p →
      ∃ tEl iEl tTxt iTxt,
        e.title = some tEl ∧ tEl.text = some tTxt ∧ tTxt ≠ "" ∧
        e.idElem = some iEl ∧ iEl.text = some iTxt ∧ iTxt ≠ "" ∧
        p.title = collapseWs (pyStrip tTxt) ∧
        p.arxiv_url = iTxt ∧
        p.id = (splitOnChar '/' iTxt).getLastD "" := by
  intro e p h
  unfold parse_paper_entry at h
  cases het : e.title with
  | none => rw [het] at h; simp at h
  | some tEl =>
    cases hei : e.idElem with
    | none => rw [het, hei] at h; simp at h
    | some iEl =>
      rw [het, hei] at h
      dsimp only at h
      cases htx : tEl.text with
      | none => rw [htx] at h; simp at h
      | some tTxt =>
        cases hix : iEl.text with
        | none => rw [htx, hix] at h; simp at h
        | some iTxt =>
          rw [htx, hix] at h
          dsimp only at h
          by_cases hne : (tTxt = "" || iTxt = "") = true
          · rw [if_pos hne] at h; simp at h
          · rw [if_neg hne] at h
            simp only [Bool.or_eq_true, decide_eq_true_eq, not_or] at hne
            have hp := Option.some.inj h
            refine ⟨tEl, iEl, tTxt, iTxt, rfl, htx, hne.1, rfl, hix, hne.2,
              ?_, ?_, ?_⟩ <;> rw [← hp]

/-- A well-formed concrete entry for instantiating the parse theorem. -/
def egEntry : Entry :=
  { title := some { text := some " Attention  Is All You Need " },
    idElem := some { text := some "http://arxiv.org/abs/2301.00001v1" },
    authors := [{ name := some { text := some "Ashish Vaswani" } }],
    categories := [some "cs.CL"] }

/-- The record `parse_paper_entry` produces from `egEntry`. -/
def egParsed : Paper :=
  { id := "2301.00001v1",
    title := "Attention Is All You Need",
    authors := ["Ashish Vaswani"],
    summary := "摘要不可用",
    published := "日期不可用",
    updated := "日期不可用",
    pdf_link := "https://arxiv.org/pdf/2301.00001v1.pdf",
    arxiv_url := "http://arxiv.org/abs/2301.00001v1",
    categories := ["cs.CL"],
    doi := none,
    journal_ref := none,
    relevance_score := 0 }

/-- C7 — witness: the parse theorem instantiated at a concrete
well-formed entry. -/
theorem c7_parse_required_fields_witness :
    parse_paper_entry egEntry = some egParsed ∧
    ∃ tEl iEl tTxt iTxt,
      egEntry.title = some tEl ∧ tEl.text = some tTxt ∧ tTxt ≠ "" ∧
      egEntry.idElem = some iEl ∧ iEl.text = some iTxt ∧ iTxt ≠ "" ∧
      egParsed.title = collapseWs (pyStrip tTxt) ∧
      egParsed.arxiv_url = iTxt ∧
      egParsed.id = (splitOnChar '/' iTxt).getLastD "" :=
  ⟨by decide, c7_parse_required_fields egEntry egParsed (by decide)⟩

/-! ## Lemmas about the dedup dict -/

theorem mem_insertPaper {r : Paper} :
    ∀ (acc : List Paper) (p : Paper), r ∈ insertPaper acc p → r ∈ acc ∨ r = p := by
  intro acc p h
  induction acc with
  | nil => simp only [insertPaper, List.mem_singleton] at h; exact Or.inr h
  | cons q rest ih =>
    simp only [insertPaper] at h
    by_cases hq : q.id = p.id
    · rw [if_pos hq] at h
      rcases List.mem_cons.mp h with h | h
      · by_cases hrs : q.relevance_score < p.relevance_score
        · rw [if_pos hrs] at h; exact Or.inr h
        · rw [if_neg hrs] at h; exact Or.inl (by simp [h])
      · exact Or.inl (List.mem_cons_of_mem _ h)
    · rw [if_neg hq] at h
      rcases List.mem_cons.mp h with h | h
      · exact Or.inl (by simp [h])
      · rcases ih h with h | h
        · exact Or.inl (List.mem_cons_of_mem _ h)
        · exact Or.inr h

theorem insertPaper_ids (p : Paper) : ∀ (acc : List Paper),
    (insertPaper acc p).map Paper.id =
      if p.id ∈ acc.map Paper.id then acc.map Paper.id
      else acc.map Paper.id ++ [p.id] := by
  intro acc
  induction acc with
  | nil => simp [insertPaper]
  | cons q rest ih =>
    simp only [insertPaper]
    by_cases hq : q.id = p.id
    · rw [if_pos hq]
      have hmem : p.id ∈ (q :: rest).map Paper.id := by simp [hq.symm]
      rw [if_pos hmem]
      have hid : (if q.relevance_score < p.relevance_score then p else q).id = q.id := by
        split
        · exact hq.symm
        · rfl
      simp [hid]
    · rw [if_neg hq]
      by_cases hmem : p.id ∈ rest.map Paper.id
      · have : p.id ∈ (q :: rest).map Paper.id := by simp [hmem]
        rw [if_pos this]
        simp only [List.map_cons, ih, if_pos hmem]
      · have : ¬ p.id ∈ (q :: rest).map Paper.id := by
          simp only [List.map_cons, List.mem_cons]
          push_neg
          exact ⟨fun hc => hq hc.symm, hmem⟩
        rw [if_neg this]
        simp only [List.map_cons, ih, if_neg hmem, List.cons_append]

theorem insertPaper_nodup (p : Paper) (acc : List Paper)
    (h : (acc.map Paper.id).Nodup) : ((insertPaper acc p).map Paper.id).Nodup := by
  rw [insertPaper_ids]
  split
  · exact h
  · rename_i hni
    rw [List.nodup_append]
    exact ⟨h, List.nodup_singleton _, by simpa [List.disjoint_singleton] using hni⟩

theorem insertPaper_dominates (acc : List Paper) (p : Paper) :
    ∃ r ∈ insertPaper acc p, r.id = p.id ∧ p.relevance_score ≤ r.relevance_score := by
  induction acc with
  | nil => exact ⟨p, by simp [insertPaper], rfl, le_refl _⟩
  | cons q rest ih =>
    simp only [insertPaper]
    by_cases hq : q.id = p.id
    · rw [if_pos hq]
      by_cases hrs : q.relevance_score < p.relevance_score
      · rw [if_pos hrs]; exact ⟨p, by simp, rfl, le_refl _⟩
      · rw [if_neg hrs]; exact ⟨q, by simp, hq, le_of_not_lt hrs⟩
    · rw [if_neg hq]
      obtain ⟨r, hr, hrid, hrs⟩ := ih
      exact ⟨r, List.mem_cons_of_mem _ hr, hrid, hrs⟩

theorem insertPaper_preserves (p : Paper) :
    ∀ (acc : List Paper) (q0 : Paper), q0 ∈ acc →
      ∃ r ∈ insertPaper acc p, r.id = q0.id ∧ q0.relevance_score ≤ r.relevance_score := by
  intro acc
  induction acc with
  | nil => intro q0 hq; simp at hq
  | cons q rest ih =>
    intro q0 hq
    simp only [insertPaper]
    by_cases hqp : q.id = p.id
    · rw [if_pos hqp]
      rcases List.mem_cons.mp hq with h | h
      · subst h
        by_cases hrs : q0.relevance_score < p.relevance_score
        · rw [if_pos hrs]
          exact ⟨p, by simp, hqp.symm, le_of_lt hrs⟩
        · rw [if_neg hrs]
          exact ⟨q0, by simp, rfl, le_refl _⟩
      · refine ⟨q0, List.mem_cons_of_mem _ h, rfl, le_refl _⟩
    · rw [if_neg hqp]
      rcases List.mem_cons.mp hq with h | h
      · subst h
        exact ⟨q0, by simp, rfl, le_refl _⟩
      · obtain ⟨r, hr, hi, hs⟩ := ih q0 h
        exact ⟨r, List.mem_cons_of_mem _ hr, hi, hs⟩

theorem foldl_insertPaper_preserves (l : List Paper) :
    ∀ (acc : List Paper) (q0 : Paper), q0 ∈ acc →
      ∃ r ∈ l.foldl insertPaper acc, r.id = q0.id ∧
        q0.relevance_score ≤ r.relevance_score := by
  induction l with
  | nil => intro acc q0 hq; exact ⟨q0, hq, rfl, le_refl _⟩
  | cons p l' ih =>
    intro acc q0 hq
    rw [List.foldl_cons]
    obtain ⟨r1, hr1, hid1, hs1⟩ := insertPaper_preserves p acc q0 hq
    obtain ⟨r2, hr2, hid2, hs2⟩ := ih (insertPaper acc p) r1 hr1
    exact ⟨r2, hr2, hid2.trans hid1, hs1.trans hs2⟩

theorem foldl_insertPaper_nodup (l : List Paper) :
    ∀ acc, (acc.map Paper.id).Nodup →
      ((l.foldl insertPaper acc).map Paper.id).Nodup := by
  induction l with
  | nil => intro acc h; exact h
  | cons p l' ih =>
    intro acc h
    rw [List.foldl_cons]
    exact ih _ (insertPaper_nodup p acc h)

theorem mem_foldl_insertPaper (l : List Paper) :
    ∀ acc r, r ∈ l.foldl insertPaper acc → r ∈ acc ∨ r ∈ l := by
  induction l with
  | nil => intro acc r h; exact Or.inl h
  | cons p l' ih =>
    intro acc r h
    rw [List.foldl_cons] at h
    rcases ih _ r h with h1 | h1
    · rcases mem_insertPaper _ _ h1 with h2 | h2
      · exact Or.inl h2
      · exact Or.inr (by simp [h2])
    · exact Or.inr (List.mem_cons_of_mem _ h1)

theorem eq_of_mem_nodup_ids :
    ∀ {l : List Paper}, (l.map Paper.id).Nodup →
      ∀ {a b : Paper}, a ∈ l → b ∈ l → a.id = b.id → a = b := by
  intro l
  induction l with
  | nil => intro _ a b ha; simp at ha
  | cons x xs ih =>
    intro hnd a b ha hb hab
    rw [List.map_cons, List.nodup_cons] at hnd
    rcases List.mem_cons.mp ha with ha1 | ha1 <;> rcases List.mem_cons.mp hb with hb1 | hb1
    · rw [ha1, hb1]
    · subst ha1
      exact absurd (hab ▸ List.mem_map_of_mem Paper.id hb1) hnd.1
    · subst hb1
      exact absurd (hab ▸ List.mem_map_of_mem Paper.id ha1) hnd.1
    · exact ih hnd.2 ha1 hb1 hab

theorem foldl_insertPaper_max (l : List Paper) :
    ∀ acc, (acc.map Paper.id).Nodup →
      ∀ r ∈ l.foldl insertPaper acc, ∀ c ∈ l, c.id = r.id →
        c.relevance_score ≤ r.relevance_score := by
  induction l with
  | nil => intro acc _ r _ c hc; simp at hc
  | cons p l' ih =>
    intro acc hnd r hr c hc hcid
    rw [List.foldl_cons] at hr
    have hnd' := insertPaper_nodup p acc hnd
    rcases List.mem_cons.mp hc with h1 | h1
    · subst h1
      obtain ⟨r1, hr1, hid1, hs1⟩ := insertPaper_dominates acc c
      obtain ⟨r2, hr2, hid2, hs2⟩ := foldl_insertPaper_preserves l' (insertPaper acc c) r1 hr1
      have hfnd := foldl_insertPaper_nodup l' _ hnd'
      have hre : r = r2 :=
        eq_of_mem_nodup_ids hfnd hr hr2 (by rw [hid2, hid1, hcid])
      rw [hre]
      exact hs1.trans hs2
    · exact ih (insertPaper acc p) hnd' r hr c h1 hcid

/-- The three dedup properties of `unique_papers`: distinct ids, the
retained records come from the input, and each retained record's score
dominates every input record sharing its id. -/
theorem unique_papers_spec (l : List Paper) :
    ((unique_papers l).map Paper.id).Nodup ∧
    (∀ r ∈ unique_papers l, r ∈ l) ∧
    (∀ r ∈ unique_papers l, ∀ c ∈ l, c.id = r.id →
      c.relevance_score ≤ r.relevance_score) := by
  unfold unique_papers
  refine ⟨foldl_insertPaper_nodup l [] (by simp), fun r hr => ?_,
    foldl_insertPaper_max l [] (by simp)⟩
  rcases mem_foldl_insertPaper l [] r hr with h | h
  · simp at h
  · exact h

instance : IsTotal Paper scoreGE :=
  ⟨fun a b => le_total b.relevance_score a.relevance_score⟩

instance : IsTrans Paper scoreGE :=
  ⟨fun _ _ _ hab hbc => le_trans hbc hab⟩

/-- Every returned paper comes from the deduplicated working set. -/
theorem mem_of_mem_search {qexec : String → ℕ → List Paper}
    {pd : String → Option ℤ} {topic : String} {max_results : ℕ}
    {strategy : String} {min_relevance : ℚ} {p : Paper} :
    p ∈ search_papers_with_relevance qexec pd topic max_results strategy min_relevance →
    p ∈ unique_papers (all_papers qexec pd topic max_results strategy min_relevance) := by
  intro h
  unfold search_papers_with_relevance at h
  have h1 := List.Sublist.mem h (List.take_sublist _ _)
  exact ((List.perm_insertionSort scoreGE _).mem_iff).mp h1

/-- C2: no two returned records share an id, and every returned record
is an accumulated candidate whose score dominates every accumulated
candidate with the same id. -/
theorem c2_dedup_invariant (qexec : String → ℕ → List Paper)
    (pd : String → Option ℤ) (topic : String) (max_results : ℕ)
    (strategy : String) (min_relevance : ℚ) :
    ((search_papers_with_relevance qexec pd topic max_results strategy
        min_relevance).map Paper.id).Nodup ∧
    ∀ r ∈ search_papers_with_relevance qexec pd topic max_results strategy min_relevance,
      r ∈ all_papers qexec pd topic max_results strategy min_relevance ∧
      ∀ c ∈ all_papers qexec pd topic max_results strategy min_relevance,
        c.id = r.id → c.relevance_score ≤ r.relevance_score := by
  obtain ⟨hnd, hmem, hmax⟩ :=
    unique_papers_spec (all_papers qexec pd topic max_results strategy min_relevance)
  constructor
  · unfold search_papers_with_relevance
    have hperm :=
      (List.perm_insertionSort scoreGE
        (unique_papers (all_papers qexec pd topic max_results strategy
          min_relevance))).map Paper.id
    have hnd2 := hperm.symm.nodup hnd
    rw [List.map_take]
    exact List.Nodup.sublist (List.take_sublist _ _) hnd2
  · intro r hr
    have hru := mem_of_mem_search hr
    exact ⟨hmem r hru, fun c hc hid => hmax r hru c hc hid⟩

/-- `egPaper1` with the relevance score the scorer assigns it for the
topic `"xyz"`. -/
def egScored1 : Paper := { egPaper1 with relevance_score := 1/20 }

/-- A paper sharing `egPaper1`'s id whose title mentions the topic
`"xyz"`, so it scores higher. -/
def egPaper2b : Paper := { egPaper1 with title := "xyz indexing" }

/-- The scored version of `egPaper2b`. -/
def egScored2b : Paper := { egPaper2b with relevance_score := 9/20 }

/-- The stub for the dedup scenario: balanced yields `egPaper1` and
`egPaper2b` (same id, scores `1/20` and `9/20`) plus `egPaper3`. -/
def egStub2 : String → ℕ → List Paper := fun q _ =>
  if q = "ti:\"xyz\" OR abs:\"xyz\"" then [egPaper1, egPaper2b, egPaper3] else []

/-- C2 — witness: in the dedup scenario the retained record for the
duplicated id is the higher-scored one. -/
theorem c2_dedup_invariant_witness :
    (egScored2b ∈ search_papers_with_relevance egStub2 egPd "xyz" 10 "comprehensive" 0) ∧
    (egScored1 ∈ all_papers egStub2 egPd "xyz" 10 "comprehensive" 0) ∧
    egScored1.id = egScored2b.id ∧
    egScored1.relevance_score ≤ egScored2b.relevance_score :=
  ⟨by with_unfolding_all decide, by with_unfolding_all decide, by decide,
   ((c2_dedup_invariant egStub2 egPd "xyz" 10 "comprehensive" 0).2 egScored2b
      (by with_unfolding_all decide)).2 egScored1
      (by with_unfolding_all decide) (by decide)⟩

/-- C9: the returned list has at most `max_results` elements and is
sorted by relevance score in descending order (every adjacent pair is
non-increasing). -/
theorem c9_sorted_truncation (qexec : String → ℕ → List Paper)
    (pd : String → Option ℤ) (topic : String) (max_results : ℕ)
    (strategy : String) (min_relevance : ℚ) :
    (search_papers_with_relevance qexec pd topic max_results strategy
      min_relevance).length ≤ max_results ∧
    ∀ i : ℕ,
      i + 1 < (search_papers_with_relevance qexec pd topic max_results strategy
        min_relevance).length →
      ((search_papers_with_relevance qexec pd topic max_results strategy
          min_relevance).getD (i+1) emptyPaper).relevance_score ≤
        ((search_papers_with_relevance qexec pd topic max_results strategy
          min_relevance).getD i emptyPaper).relevance_score := by
  constructor
  · unfold search_papers_with_relevance
    rw [List.length_take]
    exact min_le_left _ _
  · intro i hi
    have hi0 : i < (search_papers_with_relevance qexec pd topic max_results strategy
        min_relevance).length := Nat.lt_of_succ_lt hi
    have hsorted : (sortByRelevance (unique_papers (all_papers qexec pd topic
        max_results strategy min_relevance))).Pairwise scoreGE :=
      List.sorted_insertionSort scoreGE _
    have htake : (search_papers_with_relevance qexec pd topic max_results strategy
        min_relevance).Pairwise scoreGE :=
      List.Pairwise.sublist (List.take_sublist _ _) hsorted
    have hrel := List.pairwise_iff_get.mp htake ⟨i, hi0⟩ ⟨i+1, hi⟩ (by simp)
    rw [List.getD_eq_get _ emptyPaper hi, List.getD_eq_get _ emptyPaper hi0]
    exact hrel

/-- C9 — witness: instantiated on the stub pipeline, whose output has
two entries. -/
theorem c9_sorted_truncation_witness :
    (search_papers_with_relevance egStub egPd "xyz" 10 "comprehensive" 0).length ≤ 10 ∧
    (0 + 1 < (search_papers_with_relevance egStub egPd "xyz" 10 "comprehensive" 0).length ∧
      ((search_papers_with_relevance egStub egPd "xyz" 10 "comprehensive"
          0).getD (0+1) emptyPaper).relevance_score ≤
        ((search_papers_with_relevance egStub egPd "xyz" 10 "comprehensive"
          0).getD 0 emptyPaper).relevance_score) :=
  ⟨(c9_sorted_truncation egStub egPd "xyz" 10 "comprehensive" 0).1,
   by with_unfolding_all decide,
   (c9_sorted_truncation egStub egPd "xyz" 10 "comprehensive" 0).2 0
     (by with_unfolding_all decide)⟩

/-! ## The strategy loop -/

theorem loopStrategies_first_success (kept : String → List Paper) :
    ∀ (ss : List String) (j : ℕ) (hj : j < ss.length),
      (∀ i (hi : i < j), kept (ss.get ⟨i, hi.trans hj⟩) = []) →
      kept (ss.get ⟨j, hj⟩) ≠ [] →
      loopStrategies kept [] ss = kept (ss.get ⟨j, hj⟩) ∧
      invokedStrategies kept [] ss = ss.take (j + 1) := by
  intro ss
  induction ss with
  | nil => intro j hj; simp at hj
  | cons s rest ih =>
    intro j hj hprev hsucc
    cases j with
    | zero =>
      have hs : kept s ≠ [] := hsucc
      have hne : (kept s).isEmpty = false := by
        simpa [List.isEmpty_iff] using hs
      constructor
      · simp [loopStrategies, hne]
      · simp [invokedStrategies, hne]
    | succ j' =>
      have h0 : kept s = [] := hprev 0 (Nat.succ_pos j')
      have hj' : j' < rest.length := Nat.lt_of_succ_lt_succ hj
      have hprev' : ∀ i (hi : i < j'), kept (rest.get ⟨i, hi.trans hj'⟩) = [] :=
        fun i hi => hprev (i+1) (Nat.succ_lt_succ hi)
      have hsucc' : kept (rest.get ⟨j', hj'⟩) ≠ [] := hsucc
      obtain ⟨ih1, ih2⟩ := ih j' hj' hprev' hsucc'
      constructor
      · simp [loopStrategies, h0, ih1]
      · simp [invokedStrategies, h0, ih2]

/-- C1: when the strategies before index `j` yield no qualifying
candidate and strategy `j` yields some, the loop stops right after
strategy `j` (the executor is invoked exactly for the prefix up to
`j`), the working set is exactly strategy `j`'s qualifying candidates,
and every returned paper comes from that strategy's batch. -/
theorem c1_first_strategy_wins (qexec : String → ℕ → List Paper)
    (pd : String → Option ℤ) (topic : String) (max_results : ℕ)
    (strategy : String) (min_relevance : ℚ) (j : ℕ)
    (hj : j < (strategy_list strategy).length)
    (hfail : ∀ i (hi : i < j),
      keptPapers qexec pd topic max_results min_relevance
        ((strategy_list strategy).get ⟨i, hi.trans hj⟩) = [])
    (hsucc : keptPapers qexec pd topic max_results min_relevance
      ((strategy_list strategy).get ⟨j, hj⟩) ≠ []) :
    invokedStrategies (keptPapers qexec pd topic max_results min_relevance) []
        (strategy_list strategy) = (strategy_list strategy).take (j + 1) ∧
    all_papers qexec pd topic max_results strategy min_relevance =
      keptPapers qexec pd topic max_results min_relevance
        ((strategy_list strategy).get ⟨j, hj⟩) ∧
    ∀ p ∈ search_papers_with_relevance qexec pd topic max_results strategy min_relevance,
      p ∈ keptPapers qexec pd topic max_results min_relevance
        ((strategy_list strategy).get ⟨j, hj⟩) := by
  obtain ⟨h1, h2⟩ :=
    loopStrategies_first_success
      (keptPapers qexec pd topic max_results min_relevance)
      (strategy_list strategy) j hj hfail hsucc
  refine ⟨h2, h1, fun p hp => ?_⟩
  have hpu := mem_of_mem_search hp
  have hpa := (unique_papers_spec _).2.1 p hpu
  rw [show all_papers qexec pd topic max_results strategy min_relevance =
      keptPapers qexec pd topic max_results min_relevance
        ((strategy_list strategy).get ⟨j, hj⟩) from h1] at hpa
  exact hpa

/-- C1 — witness: with the stub, the comprehensive strategy yields no
qualifying candidate, balanced does, and precise is never invoked. -/
theorem c1_first_strategy_wins_witness :
    (keptPapers egStub egPd "xyz" 10 0 "comprehensive" = [] ∧
      keptPapers egStub egPd "xyz" 10 0 "balanced" ≠ []) ∧
    invokedStrategies (keptPapers egStub egPd "xyz" 10 0) []
        (strategy_list "comprehensive") =
      (strategy_list "comprehensive").take (1 + 1) := by
  have hj : (1 : ℕ) < (strategy_list "comprehensive").length := by decide
  have hfail : ∀ i (hi : i < 1),
      keptPapers egStub egPd "xyz" 10 0
        ((strategy_list "comprehensive").get ⟨i, hi.trans hj⟩) = [] := by
    intro i hi
    have h0 : i = 0 := by omega
    subst h0
    show keptPapers egStub egPd "xyz" 10 0 "comprehensive" = []
    with_unfolding_all decide
  have hsucc : keptPapers egStub egPd "xyz" 10 0
      ((strategy_list "comprehensive").get ⟨1, hj⟩) ≠ [] := by
    show keptPapers egStub egPd "xyz" 10 0 "balanced" ≠ []
    with_unfolding_all decide
  exact ⟨⟨by with_unfolding_all decide, by with_unfolding_all decide⟩,
    (c1_first_strategy_wins egStub egPd "xyz" 10 "comprehensive" 0 1 hj hfail hsucc).1⟩

end ArxivResearch
